import Mathlib

/-!
Verification of the Forecast Accumulation Engine of the kalshi_rain repository
(`backend/src/ingest.py` and `backend/src/db.py`), shallowly embedded in Lean.

Conventions of the embedding:
* Python floats are modelled as `ℚ`; hour offsets and precipitation values are
  exact rationals.
* The per-station dictionary `values_at_steps[sid]` (a Python `dict` mapping a
  forecast lead time to an extracted value) is modelled as an association list
  `List (ℕ × ℚ)`; `dict.get(k, 0.0)` becomes `dict_get`.
* Python exceptions are modelled with `Option` / `Except`: a fallible lookup
  returns `none` on the path where the Python code would raise.
* `sorted(...)` on a list of ints is `List.insertionSort (· ≤ ·)`.
-/

namespace KalshiRain

/-- Embedding of Python `d.get(k, 0.0)` on the per-station step dictionary. -/
def dict_get (vals : List (ℕ × ℚ)) (k : ℕ) : ℚ :=
  match vals.find? (fun p => p.1 == k) with
  | some p => p.2
  | none => 0

/-- Embedding of `steps = sorted(values_at_steps[sid].keys())`
(`ingest.py` line 313). -/
def sorted_steps (vals : List (ℕ × ℚ)) : List ℕ :=
  List.insertionSort (· ≤ ·) (vals.map Prod.fst)

/-- Embedding of the CUMULATIVE branch of the accumulator
(`ingest.py` lines 312-325): with `steps` the sorted recovered lead times,
if at least two steps were recovered the result is
`max(0, v_end - v_start)`; with exactly one recovered step the recovered
value is used directly when that step is `> 0`, else `0`; with no recovered
step the result is `0`. -/
def cumulative_remainder (vals : List (ℕ × ℚ)) : ℚ :=
  let steps := sorted_steps vals
  if 2 ≤ steps.length then
    max 0 (dict_get vals (steps.getLast?.getD 0) - dict_get vals (steps.head?.getD 0))
  else if steps.length = 1 then
    if 0 < steps.head?.getD 0 then dict_get vals (steps.head?.getD 0) else 0
  else 0

/-- Embedding of Python floor division `int(x // n) * n` for `x ≥ 0`
(`ingest.py` lines 251-252). -/
def round_down_to_step (x : ℚ) (n : ℕ) : ℤ :=
  ⌊x / n⌋ * n

/-- Embedding of Python `sorted(list(set([a, b])))` for two ints
(`ingest.py` line 258). -/
def sorted_pair_dedup (a b : ℤ) : List ℤ :=
  if a = b then [a] else if a ≤ b then [a, b] else [b, a]

/-- Embedding of the CUMULATIVE step plan (`ingest.py` lines 250-258):
round both hour offsets down to multiples of the step size, clamp the end to
the max forecast horizon, return nothing once the rounded start reaches the
horizon, else the (deduplicated, sorted) pair of boundary lead times. -/
def cumulative_steps (step_size maxH : ℕ) (startO endO : ℚ) : List ℤ :=
  let step_start := round_down_to_step startO step_size
  let step_end := min (round_down_to_step endO step_size) (maxH : ℤ)
  if (maxH : ℤ) ≤ step_start then [] else sorted_pair_dedup step_start step_end

/-- Embedding of the INCREMENTAL step plan (`ingest.py` lines 259-265):
`range(step_size, max_forecast_hour + step_size, step_size)` filtered by
`file_end_rel > start_hour_offset and file_start_rel < end_hour_offset`. -/
def incremental_steps (step_size maxH : ℕ) (startO endO : ℚ) : List ℕ :=
  ((List.range ((maxH + step_size - 1) / step_size)).map (fun k => (k + 1) * step_size)).filter
    (fun h => decide (startO < (h : ℚ)) && decide ((h : ℚ) - (step_size : ℚ) < endO))

/-- Embedding of the step-plan dispatch of `process_model_run`
(`ingest.py` lines 245-265). -/
def relevant_steps (is_cumulative : Bool) (step_size maxH : ℕ) (startO endO : ℚ) : List ℤ :=
  if is_cumulative then cumulative_steps step_size maxH startO endO
  else (incremental_steps step_size maxH startO endO).map Int.ofNat

/-- Embedding of the INCREMENTAL (fractional-overlap) branch of the
accumulator (`ingest.py` lines 326-337). -/
def incremental_remainder (step_size maxH : ℕ) (startO endO : ℚ)
    (vals : List (ℕ × ℚ)) : ℚ :=
  (incremental_steps step_size maxH startO endO).foldl
    (fun acc h =>
      let val := dict_get vals h
      let overlap_start := max ((h : ℚ) - (step_size : ℚ)) startO
      let overlap_end := min (h : ℚ) endO
      if overlap_start < overlap_end then acc + val * ((overlap_end - overlap_start) / step_size)
      else acc)
    0

/-- Embedding of `is_partial = end_hour_offset > max_forecast_hour`
(`ingest.py` line 307). -/
def is_partial_flag (maxH : ℕ) (endO : ℚ) : Bool :=
  decide ((maxH : ℚ) < endO)

/-- Per-station output of `process_model_run` (`ingest.py` lines 307-337):
the forecast remainder together with the partial-coverage flag. -/
def station_outputs (is_cumulative : Bool) (step_size maxH : ℕ) (startO endO : ℚ)
    (vals : List (ℕ × ℚ)) : ℚ × Bool :=
  (if is_cumulative then cumulative_remainder vals
   else incremental_remainder step_size maxH startO endO vals,
   is_partial_flag maxH endO)

/-- The coverage quantity of the conservation law: the sum of
`max(0, min(h, end_offset) - max(h - step, start_offset)) / step_size`
over all planned INCREMENTAL steps. -/
def coverage_sum (step_size maxH : ℕ) (startO endO : ℚ) : ℚ :=
  ((incremental_steps step_size maxH startO endO).map
    (fun (h : ℕ) => max 0 (min (h : ℚ) endO - max ((h : ℚ) - (step_size : ℚ)) startO)
        / (step_size : ℚ))).sum

lemma dict_get_nonneg {vals : List (ℕ × ℚ)} (h : ∀ p ∈ vals, 0 ≤ p.2) (k : ℕ) :
    0 ≤ dict_get vals k := by
  unfold dict_get
  cases hf : vals.find? (fun p => p.1 == k) with
  | none => exact le_refl 0
  | some p => exact h p (List.mem_of_find?_eq_some hf)

lemma sorted_head_min {s : List ℕ} (hs : s.Sorted (· ≤ ·)) {x : ℕ} (hx : x ∈ s) :
    s.head?.getD 0 ≤ x := by
  cases s with
  | nil => cases hx
  | cons a t =>
    rcases List.mem_cons.mp hx with rfl | hxt
    · simp
    · simpa using (List.sorted_cons.mp hs).1 x hxt

lemma sorted_last_max : ∀ {s : List ℕ}, s.Sorted (· ≤ ·) →
    ∀ x ∈ s, x ≤ s.getLast?.getD 0 := by
  intro s
  induction s with
  | nil => intro _ x hx; cases hx
  | cons a t ih =>
    intro hs x hx
    cases t with
    | nil =>
      rcases List.mem_cons.mp hx with rfl | h
      · simp
      · cases h
    | cons b u =>
      have hab : a ≤ b := (List.sorted_cons.mp hs).1 b (by simp)
      have hs2 : (b :: u).Sorted (· ≤ ·) := (List.sorted_cons.mp hs).2
      rw [List.getLast?_cons_cons]
      rcases List.mem_cons.mp hx with rfl | hxt
      · exact le_trans hab (ih hs2 b (by simp))
      · exact ih hs2 x hxt

/-- C1 (amended): for every CUMULATIVE accumulation whose recovered per-step
values are all nonnegative, the forecast remainder is nonnegative (this covers
the zero-step and one-step cases as well); a single recovered step with a
negative value is passed through unclamped, see the counterexample. -/
theorem cumulative_remainder_nonneg (vals : List (ℕ × ℚ))
    (h : ∀ p ∈ vals, 0 ≤ p.2) : 0 ≤ cumulative_remainder vals := by
  rw [cumulative_remainder]
  split_ifs with h1 h2 h3
  · exact le_max_left 0 _
  · exact dict_get_nonneg h _
  · exact le_refl 0
  · exact le_refl 0

/-- C1 counterexample: with exactly one recovered step at lead time 6 carrying
the (noise-negative) value −1, the CUMULATIVE accumulator returns −1 < 0, so
the remainder is not always nonnegative for every possible set of recovered
per-step values. -/
theorem cumulative_remainder_neg_example : cumulative_remainder [(6, (-1 : ℚ))] < 0 := by
  simp [cumulative_remainder, sorted_steps, dict_get, List.find?]

/-- C1 witness: the amended nonnegativity theorem applied at a concrete
all-nonnegative input. -/
theorem cumulative_remainder_nonneg_witness :
    0 ≤ cumulative_remainder [(6, (1 : ℚ)/10), (168, 27/20)] :=
  cumulative_remainder_nonneg [(6, (1 : ℚ)/10), (168, 27/20)] (by norm_num)

/-- C2: the CUMULATIVE accumulator, as a function of the recovered per-step
values: zero recovered steps give 0; a lone recovered step gives its value
exactly when the step is strictly positive and 0 otherwise; at least two
recovered steps give `max 0 (value at the largest recovered lead time minus
value at the smallest recovered lead time)`; recovered steps {6, 168} with
values {0.10, 1.35} inches give 1.25, and a lone recovered step 0 gives 0. -/
theorem cumulative_remainder_spec (vals : List (ℕ × ℚ)) :
    (vals = [] → cumulative_remainder vals = 0) ∧
    (∀ s v, vals = [(s, v)] → cumulative_remainder vals = if 0 < s then v else 0) ∧
    (2 ≤ vals.length →
      ∃ smin smax, smin ∈ vals.map Prod.fst ∧ smax ∈ vals.map Prod.fst ∧
        (∀ s ∈ vals.map Prod.fst, smin ≤ s ∧ s ≤ smax) ∧
        cumulative_remainder vals = max 0 (dict_get vals smax - dict_get vals smin)) ∧
    cumulative_remainder [(6, (1 : ℚ)/10), (168, 27/20)] = 5/4 ∧
    cumulative_remainder [(0, (2 : ℚ))] = 0 := by
  refine ⟨?_, ?_, ?_, ?_, ?_⟩
  · rintro rfl
    rfl
  · rintro s v rfl
    simp [cumulative_remainder, sorted_steps, dict_get, List.find?]
  · intro hlen
    have hperm := List.perm_insertionSort (· ≤ ·) (vals.map Prod.fst)
    have hsorted := List.sorted_insertionSort (· ≤ ·) (vals.map Prod.fst)
    have hlen2 : 2 ≤ (sorted_steps vals).length := by
      rw [sorted_steps, hperm.length_eq, List.length_map]
      exact hlen
    have hne : sorted_steps vals ≠ [] := by
      intro hnil
      rw [hnil] at hlen2
      simp at hlen2
    refine ⟨(sorted_steps vals).head?.getD 0, (sorted_steps vals).getLast?.getD 0, ?_, ?_, ?_, ?_⟩
    · have : (sorted_steps vals).head?.getD 0 ∈ sorted_steps vals := by
        cases hS : sorted_steps vals with
        | nil => exact absurd hS hne
        | cons a t => simp
      exact hperm.mem_iff.mp (by rw [sorted_steps] at this ⊢; exact this)
    · have : (sorted_steps vals).getLast?.getD 0 ∈ sorted_steps vals := by
        rw [List.getLast?_eq_getLast _ hne]
        exact List.getLast_mem hne
      exact hperm.mem_iff.mp (by rw [sorted_steps] at this ⊢; exact this)
    · intro s hsmem
      have hsS : s ∈ sorted_steps vals := by
        rw [sorted_steps, hperm.mem_iff]
        exact hsmem
      exact ⟨sorted_head_min hsorted hsS, sorted_last_max hsorted s hsS⟩
    · rw [cumulative_remainder]
      rw [if_pos hlen2]
  · simp [cumulative_remainder, sorted_steps, dict_get, List.find?]
    norm_num
  · simp [cumulative_remainder, sorted_steps, dict_get, List.find?]

/-- C2 witness: the case analysis applied to the concrete single-step input
`{3: 4}`. -/
theorem cumulative_remainder_spec_witness : cumulative_remainder [(3, (4 : ℚ))] = 4 := by
  have h := (cumulative_remainder_spec [(3, (4 : ℚ))]).2.1 3 4 rfl
  simpa using h

/-- C3 (amended): the step planner. CUMULATIVE: both offsets are rounded down
to multiples of the step size, the end is clamped to the max horizon, the plan
is empty exactly when the rounded start offset is greater than *or equal to*
the max horizon (the code tests `step_start >= max_forecast_hour`, not strict
excess), and otherwise the plan is the two boundary lead times, deduplicated
when equal. INCREMENTAL: the plan contains exactly the lead times
`h = k * step_size` (`1 ≤ k`, `h ≤ max horizon`) whose bucket
`[h - step, h]` satisfies `bucket_end > start_offset` and
`bucket_start < end_offset`. -/
theorem plan_steps_spec (step_size maxH : ℕ) (startO endO : ℚ)
    (hstep : 0 < step_size) (h0 : 0 ≤ startO) (hse : startO ≤ endO)
    (hdvd : step_size ∣ maxH) :
    (cumulative_steps step_size maxH startO endO =
      if (maxH : ℤ) ≤ round_down_to_step startO step_size then []
      else if round_down_to_step startO step_size
          = min (round_down_to_step endO step_size) (maxH : ℤ) then
        [round_down_to_step startO step_size]
      else [round_down_to_step startO step_size,
        min (round_down_to_step endO step_size) (maxH : ℤ)]) ∧
    (∀ h : ℕ, h ∈ incremental_steps step_size maxH startO endO ↔
      ∃ k : ℕ, 1 ≤ k ∧ k * step_size ≤ maxH ∧ h = k * step_size ∧
        startO < (h : ℚ) ∧ (h : ℚ) - (step_size : ℚ) < endO) := by
  constructor
  · rw [cumulative_steps]
    by_cases hc : (maxH : ℤ) ≤ round_down_to_step startO step_size
    · rw [if_pos hc, if_pos hc]
    · rw [if_neg hc, if_neg hc]
      have hsq : (0 : ℚ) < (step_size : ℚ) := by exact_mod_cast hstep
      have hmono : round_down_to_step startO step_size
          ≤ round_down_to_step endO step_size := by
        unfold round_down_to_step
        have hd : startO / (step_size : ℚ) ≤ endO / (step_size : ℚ) :=
          (div_le_div_right hsq).mpr hse
        exact mul_le_mul_of_nonneg_right (Int.floor_le_floor hd) (Int.natCast_nonneg step_size)
      have hle : round_down_to_step startO step_size
          ≤ min (round_down_to_step endO step_size) (maxH : ℤ) :=
        le_min hmono (le_of_lt (not_le.mp hc))
      rw [sorted_pair_dedup]
      by_cases he : round_down_to_step startO step_size
          = min (round_down_to_step endO step_size) (maxH : ℤ)
      · rw [if_pos he, if_pos he]
      · rw [if_neg he, if_neg he, if_pos hle]
  · intro h
    rw [incremental_steps, List.mem_filter]
    simp only [List.mem_map, List.mem_range, Bool.and_eq_true, decide_eq_true_eq]
    have hn : (maxH + step_size - 1) / step_size = maxH / step_size := by
      obtain ⟨m, rfl⟩ := hdvd
      have h1 : step_size * m + step_size - 1 = step_size * m + (step_size - 1) := by omega
      rw [h1, Nat.mul_add_div hstep, Nat.div_eq_of_lt (by omega),
        Nat.mul_div_cancel_left _ hstep]
      omega
    have hmm : maxH / step_size * step_size = maxH := Nat.div_mul_cancel hdvd
    rw [hn]
    constructor
    · rintro ⟨⟨k, hk, rfl⟩, hc1, hc2⟩
      refine ⟨k + 1, by omega, ?_, rfl, hc1, hc2⟩
      calc (k + 1) * step_size ≤ maxH / step_size * step_size :=
            Nat.mul_le_mul_right _ (by omega)
        _ = maxH := hmm
    · rintro ⟨k, hk1, hkb, rfl, hc1, hc2⟩
      have hk2 : k ≤ maxH / step_size := (Nat.le_div_iff_mul_le hstep).mpr hkb
      refine ⟨⟨k - 1, by omega, ?_⟩, hc1, hc2⟩
      have hk3 : k - 1 + 1 = k := by omega
      rw [hk3]

/-- C3 counterexample: with step size 6, max horizon 240, start offset 240 h
and end offset 300 h, the rounded start offset equals the max horizon (so it
does not strictly exceed it), yet the code returns the empty plan rather than
the deduplicated boundary pair `[240]` the claim prescribes. -/
theorem cumulative_steps_boundary_example :
    cumulative_steps 6 240 (240 : ℚ) 300 = [] ∧
    round_down_to_step (240 : ℚ) 6 = 240 ∧
    ¬ ((240 : ℤ) > 240) ∧
    sorted_pair_dedup (round_down_to_step (240 : ℚ) 6)
      (min (round_down_to_step (300 : ℚ) 6) 240) = [240] := by
  have hc6 : ((6 : ℕ) : ℚ) = (6 : ℚ) := by norm_num
  have h1 : round_down_to_step (240 : ℚ) 6 = 240 := by
    rw [round_down_to_step, hc6,
      show ⌊(240 : ℚ) / 6⌋ = 40 from Int.floor_eq_iff.mpr ⟨by norm_num, by norm_num⟩]
    norm_num
  have h2 : round_down_to_step (300 : ℚ) 6 = 300 := by
    rw [round_down_to_step, hc6,
      show ⌊(300 : ℚ) / 6⌋ = 50 from Int.floor_eq_iff.mpr ⟨by norm_num, by norm_num⟩]
    norm_num
  refine ⟨?_, h1, by norm_num, ?_⟩
  · rw [cumulative_steps, h1]
    norm_num
  · rw [h1, h2]
    norm_num [sorted_pair_dedup]

/-- C3 witness: the incremental characterization applied at step size 6,
max horizon 240, window offsets (3, 20): lead time 6 is planned. -/
theorem plan_steps_spec_witness : 6 ∈ incremental_steps 6 240 (3 : ℚ) 20 :=
  ((plan_steps_spec 6 240 (3 : ℚ) 20 (by norm_num) (by norm_num) (by norm_num)
    (by norm_num)).2 6).mpr ⟨1, by norm_num, by norm_num, by norm_num, by norm_num, by norm_num⟩

/-- Clamping a point into the coverage window `[lo, hi]`. -/
def clampQ (lo hi x : ℚ) : ℚ := max lo (min x hi)

lemma overlap_clamp (a b lo hi : ℚ) (hab : a ≤ b) (hlh : lo ≤ hi) :
    max 0 (min b hi - max a lo) = clampQ lo hi b - clampQ lo hi a := by
  rw [clampQ, clampQ]
  rcases le_total b hi with h1 | h1 <;> rcases le_total a lo with h2 | h2 <;>
    rcases le_total a hi with h3 | h3 <;> rcases le_total lo b with h4 | h4 <;>
    simp only [max_def, min_def] <;> split_ifs <;> linarith

lemma list_range_map_sum (n : ℕ) (g : ℕ → ℚ) :
    ((List.range n).map g).sum = ∑ i in Finset.range n, g i := by
  induction n with
  | zero => simp
  | succ m ih =>
    rw [List.range_succ, List.map_append, List.sum_append, Finset.sum_range_succ, ih]
    simp

lemma sum_filter_vanish (p : ℕ → Bool) (g : ℕ → ℚ) :
    ∀ l : List ℕ, (∀ x ∈ l, p x = false → g x = 0) →
      ((l.filter p).map g).sum = (l.map g).sum := by
  intro l
  induction l with
  | nil => simp
  | cons a t ih =>
    intro hv
    have ht := ih (fun x hx hp => hv x (List.mem_cons_of_mem a hx) hp)
    rw [List.filter_cons]
    cases hp : p a with
    | true => simp [List.map_cons, List.sum_cons, ht]
    | false =>
      rw [List.map_cons, List.sum_cons, hv a (List.mem_cons_self a t) hp]
      simpa using ht

lemma ceil_steps_cover (step maxH : ℕ) (hstep : 0 < step) :
    maxH ≤ (maxH + step - 1) / step * step := by
  have h := Nat.lt_div_mul_add (a := maxH + step - 1) (b := step) hstep
  omega

/-- C4 (amended): for an INCREMENTAL model and a coverage window
`[start_offset, end_offset]` with `0 ≤ start_offset ≤ end_offset ≤ max
horizon` (so the window is fully covered by the consecutive step-sized
buckets), the sum of `overlap / step_size` over ALL planned steps equals
`(end_offset - start_offset) / step_size`; it equals 1.0 exactly when the
window is one step long. -/
theorem coverage_sum_conservation (step_size maxH : ℕ) (startO endO : ℚ)
    (hstep : 0 < step_size) (h0 : 0 ≤ startO) (hse : startO ≤ endO)
    (hend : endO ≤ (maxH : ℚ)) :
    coverage_sum step_size maxH startO endO = (endO - startO) / (step_size : ℚ) ∧
    (coverage_sum step_size maxH startO endO = 1 ↔ endO - startO = (step_size : ℚ)) := by
  have hsq : (0 : ℚ) < (step_size : ℚ) := by exact_mod_cast hstep
  have key : coverage_sum step_size maxH startO endO = (endO - startO) / (step_size : ℚ) := by
    rw [coverage_sum, incremental_steps]
    rw [sum_filter_vanish _ _ _ ?vanish]
    case vanish =>
      intro x _ hfalse
      have hnot : ¬ (startO < (x : ℚ) ∧ (x : ℚ) - (step_size : ℚ) < endO) := by
        rintro ⟨ha, hb⟩
        simp [ha, hb] at hfalse
      have ht : min (x : ℚ) endO - max ((x : ℚ) - (step_size : ℚ)) startO ≤ 0 := by
        rcases not_and_or.mp hnot with hna | hnb
        · have hxa := not_lt.mp hna
          have hm1 := min_le_left (x : ℚ) endO
          have hm2 := le_max_right ((x : ℚ) - (step_size : ℚ)) startO
          linarith
        · have hxb := not_lt.mp hnb
          have hm1 := min_le_right (x : ℚ) endO
          have hm2 := le_max_left ((x : ℚ) - (step_size : ℚ)) startO
          linarith
      rw [max_eq_left ht, zero_div]
    rw [List.map_map, list_range_map_sum]
    have hterm : ∀ i ∈ Finset.range ((maxH + step_size - 1) / step_size),
        ((fun h : ℕ => max 0 (min (h : ℚ) endO - max ((h : ℚ) - (step_size : ℚ)) startO)
            / (step_size : ℚ)) ∘ fun k => (k + 1) * step_size) i =
          (clampQ startO endO (((i + 1) * step_size : ℕ) : ℚ)
            - clampQ startO endO ((i * step_size : ℕ) : ℚ)) / (step_size : ℚ) := by
      intro i _
      simp only [Function.comp]
      have hA : (((i + 1) * step_size : ℕ) : ℚ) - (step_size : ℚ)
          = ((i * step_size : ℕ) : ℚ) := by push_cast; ring
      have hAB : ((i * step_size : ℕ) : ℚ) ≤ (((i + 1) * step_size : ℕ) : ℚ) := by
        exact_mod_cast Nat.mul_le_mul_right step_size (Nat.le_succ i)
      rw [hA, overlap_clamp _ _ _ _ hAB hse]
    rw [Finset.sum_congr rfl hterm, ← Finset.sum_div,
      Finset.sum_range_sub (fun k => clampQ startO endO ((k * step_size : ℕ) : ℚ))]
    have hFn : clampQ startO endO ((((maxH + step_size - 1) / step_size) * step_size : ℕ) : ℚ)
        = endO := by
      have hcov : endO ≤ ((((maxH + step_size - 1) / step_size) * step_size : ℕ) : ℚ) := by
        refine le_trans hend ?_
        exact_mod_cast ceil_steps_cover step_size maxH hstep
      rw [clampQ, min_eq_right hcov, max_eq_right hse]
    have hF0 : clampQ startO endO (((0 * step_size : ℕ) : ℚ)) = startO := by
      have : ((0 * step_size : ℕ) : ℚ) = 0 := by push_cast; ring
      rw [clampQ, this, min_eq_left (le_trans h0 hse), max_eq_left h0]
    rw [hFn, hF0]
  refine ⟨key, ?_⟩
  rw [key, div_eq_iff (ne_of_gt hsq), one_mul]

/-- C4 counterexample: step size 6 with the fully covered window
`[0, 12]` (max horizon 48) — the sum of `overlap / step_size` over all
planned steps is 2, not 1, refuting the claim that the sum is 1.0 for every
fully covered window. -/
theorem coverage_sum_two_example :
    coverage_sum 6 48 (0 : ℚ) 12 = 2 ∧ (2 : ℚ) ≠ 1 ∧
    (0 : ℚ) ≤ 0 ∧ (0 : ℚ) ≤ 12 ∧ (12 : ℚ) ≤ 48 := by
  refine ⟨?_, by norm_num, by norm_num, by norm_num, by norm_num⟩
  norm_num [coverage_sum, incremental_steps, List.range_succ, List.filter_cons,
    Bool.and_eq_true, decide_eq_true_eq]

/-- C4 witness: the conservation law applied at step size 6, max horizon 48,
window `[0, 12]`. -/
theorem coverage_sum_conservation_witness :
    coverage_sum 6 48 (0 : ℚ) 12 = (12 - 0) / (6 : ℚ) :=
  (coverage_sum_conservation 6 48 (0 : ℚ) 12 (by norm_num) (by norm_num) (by norm_num)
    (by norm_num)).1

/-- C5: the partial-coverage flag of a model run is true exactly when the
requested end offset exceeds the model horizon; it does not depend on the
recovered per-step values, and the concrete scenario end offset 400 h with
max horizon 240 h yields `is_partial = true`. -/
theorem is_partial_spec (is_cumulative : Bool) (step_size maxH : ℕ) (startO endO : ℚ)
    (vals vals2 : List (ℕ × ℚ)) :
    ((station_outputs is_cumulative step_size maxH startO endO vals).2 = true ↔
      (maxH : ℚ) < endO) ∧
    (station_outputs is_cumulative step_size maxH startO endO vals).2 =
      (station_outputs is_cumulative step_size maxH startO endO vals2).2 ∧
    (station_outputs true 6 240 (0 : ℚ) 400 []).2 = true := by
  refine ⟨?_, rfl, ?_⟩
  · simp [station_outputs, is_partial_flag]
  · simp only [station_outputs, is_partial_flag, decide_eq_true_eq]
    norm_num

/-- A row of the `forecasts` table (`db.py` lines 21-33): `observed_mtd` and
`forecast_remainder` are nullable REAL columns, `total_proj` is always
computed and written by `save_forecast`. The `id` and `created_at` columns
play no role in the claims and are omitted. -/
structure ForecastRow where
  location_id : String
  model_name : String
  init_time : String
  observed_mtd : Option ℚ
  forecast_remainder : Option ℚ
  total_proj : ℚ
  is_partial_col : Bool
deriving DecidableEq

/-- The key of the unique index `idx_forecasts_unique` on
`(location_id, model_name, init_time)` (`db.py` line 59). -/
def rowKey (r : ForecastRow) : String × String × String :=
  (r.location_id, r.model_name, r.init_time)

/-- Python `x or 0.0` on a nullable float (`db.py` line 142): `None` and
`0.0` are falsy, every other float is returned unchanged. -/
def pyOr (o : Option ℚ) : ℚ :=
  match o with
  | none => 0
  | some v => if v = 0 then 0 else v

/-- `save_forecast` (`db.py` lines 138-151): the function takes no
caller-supplied total; it computes
`total_proj = (observed_mtd or 0.0) + (forecast_remainder or 0.0)` itself
and issues `INSERT OR REPLACE`, which under the unique index deletes any
conflicting row and inserts the new one. The table is modelled as the list
of its rows. -/
def save_forecast (db : List ForecastRow) (location_id model_name init_time : String)
    (observed_mtd forecast_remainder : Option ℚ) (is_partial_arg : Bool) : List ForecastRow :=
  let total_proj := pyOr observed_mtd + pyOr forecast_remainder
  { location_id := location_id, model_name := model_name, init_time := init_time,
    observed_mtd := observed_mtd, forecast_remainder := forecast_remainder,
    total_proj := total_proj, is_partial_col := is_partial_arg } ::
    db.filter (fun r => !(decide (rowKey r = (location_id, model_name, init_time))))

/-- Reading the row stored under a `(location_id, model_name, init_time)`
key. -/
def lookup_forecast (db : List ForecastRow) (k : String × String × String) :
    Option ForecastRow :=
  db.find? (fun r => decide (rowKey r = k))

lemma pyOr_eq_getD (o : Option ℚ) : pyOr o = o.getD 0 := by
  cases o with
  | none => rfl
  | some v =>
    by_cases h : v = 0 <;> simp [pyOr, h]

lemma filter_key_of_filter_not (k : String × String × String) (l : List ForecastRow) :
    (l.filter (fun r => !(decide (rowKey r = k)))).filter
      (fun r => decide (rowKey r = k)) = [] := by
  induction l with
  | nil => rfl
  | cons a t ih =>
    by_cases h : rowKey a = k <;> simp [List.filter_cons, h, ih]

/-- C7: at write time `save_forecast` recomputes and persists
`total_proj = observed_mtd + forecast_remainder` (with absent values taken
as 0; no caller-supplied total exists in its interface), and a second write
for the same `(location, model, run_time)` key replaces the earlier row:
the key then maps to the latest row, exactly one row with that key remains
(no append), and its total comes from the latest write alone (no summing). -/
theorem save_forecast_upsert (db : List ForecastRow) (loc model t : String)
    (obs1 rem1 obs2 rem2 : Option ℚ) (p1 p2 : Bool) :
    lookup_forecast
        (save_forecast (save_forecast db loc model t obs1 rem1 p1) loc model t obs2 rem2 p2)
        (loc, model, t) =
      some { location_id := loc, model_name := model, init_time := t,
             observed_mtd := obs2, forecast_remainder := rem2,
             total_proj := obs2.getD 0 + rem2.getD 0, is_partial_col := p2 } ∧
    ((save_forecast (save_forecast db loc model t obs1 rem1 p1) loc model t obs2 rem2 p2).filter
        (fun r => decide (rowKey r = (loc, model, t)))).length = 1 := by
  constructor
  · simp [lookup_forecast, save_forecast, rowKey, List.find?, pyOr_eq_getD]
  · rw [save_forecast]
    simp only [List.filter_cons]
    rw [show decide (rowKey { location_id := loc, model_name := model, init_time := t,
                              observed_mtd := obs2, forecast_remainder := rem2,
                              total_proj := pyOr obs2 + pyOr rem2, is_partial_col := p2 }
        = (loc, model, t)) = true from by simp [rowKey]]
    simp [filter_key_of_filter_not]

/-- C10: when `observed_mtd` or `forecast_remainder` is `None`, the write
still succeeds and the persisted `total_proj` equals the sum with each
`None` taken as 0.0 (`x or 0.0`); `total_proj` is of non-nullable type in
the embedding, matching the fact that the code always computes it. -/
theorem save_forecast_none_total (db : List ForecastRow) (loc model t : String)
    (obs rem : Option ℚ) (p : Bool) (hnone : obs = none ∨ rem = none) :
    lookup_forecast (save_forecast db loc model t obs rem p) (loc, model, t) =
      some { location_id := loc, model_name := model, init_time := t,
             observed_mtd := obs, forecast_remainder := rem,
             total_proj := obs.getD 0 + rem.getD 0, is_partial_col := p } := by
  simp [lookup_forecast, save_forecast, rowKey, List.find?, pyOr_eq_getD]

/-- C10 witness: a write with `observed_mtd = None` and remainder 3/2. -/
theorem save_forecast_none_total_witness :
    lookup_forecast
        (save_forecast [] "KNYC" "GFS" "2025-01-01T00:00:00" none (some (3/2)) false)
        ("KNYC", "GFS", "2025-01-01T00:00:00") =
      some { location_id := "KNYC", model_name := "GFS", init_time := "2025-01-01T00:00:00",
             observed_mtd := none, forecast_remainder := some (3/2),
             total_proj := (none : Option ℚ).getD 0 + (some ((3 : ℚ)/2)).getD 0,
             is_partial_col := false } :=
  save_forecast_none_total [] "KNYC" "GFS" "2025-01-01T00:00:00" none (some (3/2)) false
    (Or.inl rfl)

/-- Python float `x % m` for a positive modulus `m`
(`station.lon % 360`, `ingest.py` line 161): the result lies in `[0, m)`. -/
def pyMod (m x : ℚ) : ℚ := x - m * ⌊x / m⌋

/-- Index of the first minimum of a list (ties go to the earlier index);
an empty list gives index 0. -/
def argminIdx : List ℚ → ℕ
  | [] => 0
  | [_] => 0
  | x :: y :: rest =>
      let j := argminIdx (y :: rest)
      if x ≤ (y :: rest).getD j 0 then 0 else j + 1

/-- Nearest grid index along one 1-D coordinate axis: the first index whose
coordinate minimizes the distance to the target (xarray
`sel(..., method="nearest")` on a rectilinear axis). -/
def nearestIdx (coords : List ℚ) (target : ℚ) : ℕ :=
  argminIdx (coords.map (fun c => |c - target|))

/-- Longitude handling of the 1-D branch of `extract_precip_values`
(`ingest.py` lines 156-166): the station longitude is normalized into the
0-360 convention exactly when some grid longitude exceeds 180, then the
nearest longitude grid line is selected. Latitude selection is independent
of the longitude convention, so two conventions select the same grid cell
exactly when they select the same longitude index. -/
def selectLonIndex1D (ds_lons : List ℚ) (station_lon : ℚ) : ℕ :=
  let target_lon := if ds_lons.any (fun l => decide (180 < l)) then pyMod 360 station_lon
    else station_lon
  nearestIdx ds_lons target_lon

lemma pyMod_of_neg {x : ℚ} (h1 : -360 < x) (h2 : x < 0) : pyMod 360 x = x + 360 := by
  have h360 : (0 : ℚ) < 360 := by norm_num
  have hf : ⌊x / 360⌋ = -1 := by
    rw [Int.floor_eq_iff]
    constructor
    · push_cast
      rw [le_div_iff h360]
      linarith
    · push_cast
      rw [div_lt_iff h360]
      linarith
  rw [pyMod, hf]
  push_cast
  ring

lemma nearestIdx_shift (lons : List ℚ) (t c : ℚ) :
    nearestIdx (lons.map (fun l => l + c)) (t + c) = nearestIdx lons t := by
  rw [nearestIdx, nearestIdx, List.map_map]
  have hfun : ((fun x => |x - (t + c)|) ∘ fun l => l + c) = fun l => |l - t| := by
    funext l
    simp only [Function.comp]
    congr 1
    ring
  rw [hfun]

/-- C8 (amended): for the station at longitude −119°, 1-D nearest-neighbor
extraction selects the same longitude grid index whether the grid is given
in the ±180° or the 0–360° convention, provided every grid longitude lies
strictly between −180° and 0° (equivalently, strictly between 180° and 360°
in the 0–360 representation) — the station longitude is normalized into
0–360 exactly when some grid longitude exceeds 180, and on such grids every
lookup distance is preserved. On grids that also contain eastern-hemisphere
cells the two conventions can select different cells, because the lookup
distance is linear in longitude rather than circular (see the
counterexample). -/
theorem lon_convention_agree (lons : List ℚ) (hne : lons ≠ [])
    (hw : ∀ l ∈ lons, -180 < l ∧ l < 0) :
    selectLonIndex1D (lons.map (pyMod 360)) (-119) = selectLonIndex1D lons (-119) := by
  have hmap : lons.map (pyMod 360) = lons.map (fun l => l + 360) :=
    List.map_congr_left (fun l hl => pyMod_of_neg (by linarith [(hw l hl).1]) ((hw l hl).2))
  have hany1 : lons.any (fun l => decide (180 < l)) = false := by
    rw [List.any_eq_false]
    intro x hx
    simp only [decide_eq_true_eq]
    intro hgt
    linarith [(hw x hx).2]
  have hany2 : (lons.map (fun l => l + 360)).any (fun l => decide (180 < l)) = true := by
    cases lons with
    | nil => exact absurd rfl hne
    | cons a tl =>
      have ha : (-180 : ℚ) < a := (hw a (List.mem_cons_self a tl)).1
      simp only [List.map_cons, List.any_cons, Bool.or_eq_true, decide_eq_true_eq]
      exact Or.inl (by linarith)
  rw [selectLonIndex1D, selectLonIndex1D, hmap, hany1, hany2]
  rw [if_pos rfl, if_neg (by simp)]
  have h241 : pyMod 360 (-119 : ℚ) = (-119 : ℚ) + 360 :=
    pyMod_of_neg (by norm_num) (by norm_num)
  rw [h241, nearestIdx_shift]

/-- C8 counterexample: the physical two-cell grid at longitudes
{−39°, 170°}. In the ±180° convention the code uses target −119° and picks
index 0 (the cell at −39°); in the 0–360° convention the same grid reads
{321°, 170°}, the target is normalized to 241°, and the code picks index 1
(the cell at 170°) — a different grid cell. `pyMod 360 (−39) = 321`
certifies that both lists present the same physical grid. -/
theorem lon_convention_disagree_example :
    selectLonIndex1D [(-39 : ℚ), 170] (-119) = 0 ∧
    selectLonIndex1D [(321 : ℚ), 170] (-119) = 1 ∧
    pyMod 360 (-39 : ℚ) = 321 ∧ (0 : ℕ) ≠ 1 := by
  have hd1 : (decide ((180 : ℚ) < -39)) = false := decide_eq_false (by norm_num)
  have hd2 : (decide ((180 : ℚ) < 170)) = false := decide_eq_false (by norm_num)
  have hd3 : (decide ((180 : ℚ) < 321)) = true := decide_eq_true (by norm_num)
  have habs1 : |(-39 : ℚ) - -119| = 80 := by
    rw [show (-39 : ℚ) - -119 = 80 by norm_num]
    exact abs_of_nonneg (by norm_num)
  have habs2 : |(170 : ℚ) - -119| = 289 := by
    rw [show (170 : ℚ) - -119 = 289 by norm_num]
    exact abs_of_nonneg (by norm_num)
  have h241 : pyMod 360 (-119 : ℚ) = 241 := by
    rw [pyMod_of_neg (by norm_num) (by norm_num)]
    norm_num
  have habs3 : |(321 : ℚ) - 241| = 80 := by
    rw [show (321 : ℚ) - 241 = 80 by norm_num]
    exact abs_of_nonneg (by norm_num)
  have habs4 : |(170 : ℚ) - 241| = 71 := by
    rw [show (170 : ℚ) - 241 = -71 by norm_num, abs_of_nonpos (by norm_num)]
    norm_num
  refine ⟨?_, ?_, ?_, by norm_num⟩
  · rw [selectLonIndex1D]
    simp only [List.any_cons, List.any_nil, hd1, hd2, Bool.or_false, Bool.false_or]
    rw [if_neg (by simp)]
    rw [nearestIdx]
    simp only [List.map_cons, List.map_nil, habs1, habs2]
    rw [argminIdx]
    simp only [argminIdx, List.getD, List.get?, Option.getD_some]
    rw [if_pos (by norm_num : (80 : ℚ) ≤ 289)]
  · rw [selectLonIndex1D]
    simp only [List.any_cons, List.any_nil, hd3, Bool.true_or]
    rw [if_pos trivial, h241]
    rw [nearestIdx]
    simp only [List.map_cons, List.map_nil, habs3, habs4]
    rw [argminIdx]
    simp only [argminIdx, List.getD, List.get?, Option.getD_some]
    rw [if_neg (by norm_num : ¬ ((80 : ℚ) ≤ 71))]
  · rw [pyMod_of_neg (by norm_num) (by norm_num)]
    norm_num

/-- C8 witness: the amended agreement theorem applied to the one-cell
western grid at longitude −100°. -/
theorem lon_convention_agree_witness :
    selectLonIndex1D ([(-100 : ℚ)].map (pyMod 360)) (-119) =
      selectLonIndex1D [(-100 : ℚ)] (-119) :=
  lon_convention_agree [(-100 : ℚ)] (by simp)
    (by
      intro l hl
      rw [List.mem_singleton] at hl
      subst hl
      norm_num)

/-- Control-flow model of `extract_precip_values` (`ingest.py` lines
135-204). The xarray dataset is abstracted to: whether lat/lon coordinate
names were identified (`has_coords`, lines 137-143), whether the coordinate
arrays are 1-D (`one_d`, line 149), and per-station selection oracles
(`none` models a raised Python exception). In the 1-D branch each station's
lookup is wrapped in its own try/except substituting 0.0 (lines 163-167);
in the 2-D branch a station failure propagates to the outer handler (lines
202-204), which discards the partial results and returns a fresh all-zero
dict for the whole batch. The function itself is total: it never raises. -/
def extract_precip_values (has_coords one_d : Bool)
    (sel1 sel2 : String → Option ℚ) (stations : List String) : List (String × ℚ) :=
  if !has_coords then stations.map (fun sid => (sid, 0))
  else if one_d then stations.map (fun sid => (sid, (sel1 sid).getD 0))
  else if stations.all (fun sid => (sel2 sid).isSome) then
    stations.map (fun sid => (sid, (sel2 sid).getD 0))
  else stations.map (fun sid => (sid, 0))

/-- C6 (amended): the spatial extractor is a total function (never raises).
When lat/lon coordinates cannot be identified every station receives 0.
On a 1-D grid each station's failure is isolated: the station whose lookup
fails gets 0 while every other station still receives its extracted value.
On a 2-D grid, however, isolation fails: if every station succeeds each
receives its value, but a single station's failure degrades the whole batch
to zeros (still without raising) — see the counterexample. -/
theorem extract_precip_values_spec (has_coords one_d : Bool)
    (sel1 sel2 : String → Option ℚ) (stations : List String) (sid : String)
    (hmem : sid ∈ stations) :
    (has_coords = false →
      extract_precip_values has_coords one_d sel1 sel2 stations
        = stations.map (fun s => (s, 0))) ∧
    (has_coords = true → one_d = true →
      (sid, (sel1 sid).getD 0) ∈ extract_precip_values has_coords one_d sel1 sel2 stations) ∧
    (has_coords = true → one_d = false → (∀ s ∈ stations, (sel2 s).isSome = true) →
      (sid, (sel2 sid).getD 0) ∈ extract_precip_values has_coords one_d sel1 sel2 stations) ∧
    (has_coords = true → one_d = false → (∃ s ∈ stations, sel2 s = none) →
      extract_precip_values has_coords one_d sel1 sel2 stations
        = stations.map (fun s => (s, 0))) := by
  refine ⟨?_, ?_, ?_, ?_⟩
  · rintro rfl
    simp [extract_precip_values]
  · rintro rfl rfl
    rw [extract_precip_values]
    simp only [Bool.not_true, if_true]
    exact List.mem_map.mpr ⟨sid, hmem, rfl⟩
  · rintro rfl rfl hall
    rw [extract_precip_values]
    simp only [Bool.not_true]
    rw [if_neg (by simp), if_neg (by simp), if_pos (List.all_eq_true.mpr hall)]
    exact List.mem_map.mpr ⟨sid, hmem, rfl⟩
  · rintro rfl rfl hex
    obtain ⟨s, hs, hnone⟩ := hex
    rw [extract_precip_values]
    simp only [Bool.not_true]
    rw [if_neg (by simp), if_neg (by simp), if_neg]
    intro hall
    have := List.all_eq_true.mp hall s hs
    rw [hnone] at this
    cases this

/-- C6 counterexample: a 2-D grid with two stations where only station B's
lookup fails. Station A's own extraction succeeds with value 1, yet the
returned batch sets station A to 0 as well, contradicting the claim that
only the failing station is zeroed while the rest of the batch receives its
extracted values. -/
theorem extract_precip_values_batch_zero_example :
    extract_precip_values true false (fun _ => none)
        (fun sid => if sid = "A" then some 1 else none) ["A", "B"]
      = [("A", 0), ("B", 0)] ∧
    (fun sid => if sid = "A" then some (1 : ℚ) else none) "A" = some 1 ∧
    extract_precip_values true false (fun _ => none)
        (fun sid => if sid = "A" then some 1 else none) ["A", "B"]
      ≠ [("A", 1), ("B", 0)] := by
  refine ⟨?_, by simp, ?_⟩
  · rw [extract_precip_values]
    simp
  · rw [extract_precip_values]
    simp

/-- C6 witness: the amended theorem at a concrete 1-D batch where station
"B" fails and station "A" succeeds with value 2: "A" still receives 2. -/
theorem extract_precip_values_spec_witness :
    ("A", ((fun s => if s = "A" then some (2 : ℚ) else none) "A").getD 0) ∈
      extract_precip_values true true (fun s => if s = "A" then some (2 : ℚ) else none)
        (fun _ => none) ["A", "B"] :=
  (extract_precip_values_spec true true (fun s => if s = "A" then some (2 : ℚ) else none)
    (fun _ => none) ["A", "B"] "A" (by simp)).2.1 rfl rfl

/-- Cycle interval used when probing for the latest run
(`ingest.py` lines 43-45): hourly for HRRR and NAM, 6-hourly otherwise. -/
def cycle_step_for (model_name : String) : ℕ :=
  if model_name = "HRRR" ∨ model_name = "NAM" then 1 else 6

/-- The most recent cycle boundary at or before now (`ingest.py` lines
48-50): minutes and seconds are zeroed and the hour of day is rounded down
to a multiple of the cycle step. Time is modelled in whole hours since an
epoch. -/
def cycle_boundary (now_hours cycle_step : ℕ) : ℕ :=
  now_hours / 24 * 24 + now_hours % 24 / cycle_step * cycle_step

/-- Candidate run time `i` cycles before the boundary (`ingest.py` line
52-53): `t = current_cycle_start - timedelta(hours=cycle_step*i)`. -/
def candidate_run (now_hours cycle_step : ℕ) (i : ℕ) : ℤ :=
  (cycle_boundary now_hours cycle_step : ℤ) - (cycle_step : ℤ) * (i : ℤ)

/-- `get_latest_run_time` (`ingest.py` lines 32-76): probe the 12 candidate
run times newest first with the remote existence check (`s3.head_object` on
the canonical first file of the run, abstracted as the oracle `head_ok`);
return the first candidate that passes, and raise `RuntimeError` when all
12 checks fail. -/
def get_latest_run_time (head_ok : ℤ → Bool) (model_name : String) (now_hours : ℕ) :
    Except String ℤ :=
  match ((List.range 12).map (candidate_run now_hours (cycle_step_for model_name))).find?
      head_ok with
  | some t => Except.ok t
  | none => Except.error ("Could not find any recent runs for " ++ model_name)

/-- The per-model loop of the ingestion entry point (`ingest.py` lines
351-358): each model is resolved inside its own try/except, so a failure is
recorded for that model and the loop continues with the remaining models. -/
def ingest_all (head_ok : String → ℤ → Bool) (now_hours : ℕ) (models : List String) :
    List (String × Except String ℤ) :=
  models.map (fun m => (m, get_latest_run_time (head_ok m) m now_hours))

lemma find?_map_range_eq_none (p : ℤ → Bool) (f : ℕ → ℤ) (n : ℕ) :
    ((List.range n).map f).find? p = none ↔ ∀ i, i < n → p (f i) = false := by
  rw [List.find?_eq_none]
  constructor
  · intro h i hi
    exact Bool.eq_false_iff.mpr (h (f i) (List.mem_map.mpr ⟨i, List.mem_range.mpr hi, rfl⟩))
  · intro h x hx
    obtain ⟨i, hi, rfl⟩ := List.mem_map.mp hx
    rw [h i (List.mem_range.mp hi)]
    simp

lemma find?_map_range_eq_some (p : ℤ → Bool) (f : ℕ → ℤ) (n : ℕ) (t : ℤ) :
    ((List.range n).map f).find? p = some t ↔
      ∃ i, i < n ∧ t = f i ∧ p (f i) = true ∧ ∀ j, j < i → p (f j) = false := by
  induction n with
  | zero => simp
  | succ m ih =>
    rw [List.range_succ, List.map_append, List.find?_append]
    constructor
    · intro h
      cases hfind : ((List.range m).map f).find? p with
      | some u =>
        rw [hfind] at h
        simp only [Option.or] at h
        obtain ⟨i, him, htu, hp, hmin⟩ := ih.mp (hfind.trans h)
        exact ⟨i, Nat.lt_succ_of_lt him, htu, hp, hmin⟩
      | none =>
        rw [hfind] at h
        simp only [Option.or, List.find?] at h
        cases hp : p (f m) with
        | true =>
          rw [hp] at h
          simp only [Option.some.injEq] at h
          refine ⟨m, Nat.lt_succ_self m, h.symm, hp, ?_⟩
          intro j hj
          exact (find?_map_range_eq_none p f m).mp hfind j hj
        | false =>
          rw [hp] at h
          cases h
    · rintro ⟨i, hi, rfl, hp, hmin⟩
      by_cases him : i < m
      · rw [ih.mpr ⟨i, him, rfl, hp, hmin⟩]
        simp only [Option.or]
      · have him2 : i = m := by omega
        subst him2
        rw [(find?_map_range_eq_none p f i).mpr (fun j hj => hmin j hj)]
        simp only [Option.or, List.find?, hp]

lemma cycle_boundary_facts (now cs : ℕ) (hcs : 0 < cs) (hdvd : cs ∣ 24) :
    cycle_boundary now cs ≤ now ∧ now - cycle_boundary now cs < cs ∧
      cs ∣ cycle_boundary now cs := by
  have h1 := Nat.div_add_mod now 24
  have h2 := Nat.div_add_mod (now % 24) cs
  have h3 := Nat.mod_lt (now % 24) hcs
  rw [cycle_boundary, Nat.mul_comm (now % 24 / cs) cs]
  refine ⟨by omega, by omega, ?_⟩
  obtain ⟨k, hk⟩ := hdvd
  refine ⟨now / 24 * k + now % 24 / cs, ?_⟩
  nth_rewrite 2 [hk]
  ring

/-- C9: run resolution and its batch behavior. The cycle step is positive
and divides 24, so the probe start `cycle_boundary` is the most recent
cycle boundary at or before now; consecutive candidates step backward by
one cycle interval; the resolver returns `ok t` exactly when `t` is the
first of the 12 candidates whose first-file existence check succeeds; it
returns the "no recent runs" error exactly when all 12 checks fail; and in
the batch loop every model, including failing ones, contributes its own
independent entry, so one model's error never aborts the others. -/
theorem get_latest_run_time_spec (head_ok : String → ℤ → Bool) (model_name : String)
    (now_hours : ℕ) (models : List String) :
    (0 < cycle_step_for model_name ∧ cycle_step_for model_name ∣ 24) ∧
    (cycle_boundary now_hours (cycle_step_for model_name) ≤ now_hours ∧
      now_hours - cycle_boundary now_hours (cycle_step_for model_name)
        < cycle_step_for model_name ∧
      cycle_step_for model_name ∣ cycle_boundary now_hours (cycle_step_for model_name)) ∧
    (∀ i : ℕ, candidate_run now_hours (cycle_step_for model_name) (i + 1)
      = candidate_run now_hours (cycle_step_for model_name) i
        - (cycle_step_for model_name : ℤ)) ∧
    (∀ t : ℤ, get_latest_run_time (head_ok model_name) model_name now_hours = Except.ok t ↔
      ∃ i, i < 12 ∧ t = candidate_run now_hours (cycle_step_for model_name) i ∧
        head_ok model_name (candidate_run now_hours (cycle_step_for model_name) i) = true ∧
        ∀ j, j < i →
          head_ok model_name (candidate_run now_hours (cycle_step_for model_name) j) = false) ∧
    (get_latest_run_time (head_ok model_name) model_name now_hours
        = Except.error ("Could not find any recent runs for " ++ model_name) ↔
      ∀ i, i < 12 →
        head_ok model_name (candidate_run now_hours (cycle_step_for model_name) i) = false) ∧
    (model_name ∈ models →
      (model_name, get_latest_run_time (head_ok model_name) model_name now_hours)
        ∈ ingest_all head_ok now_hours models) := by
  have hcs : 0 < cycle_step_for model_name ∧ cycle_step_for model_name ∣ 24 := by
    rw [cycle_step_for]
    split_ifs <;> norm_num
  refine ⟨hcs, cycle_boundary_facts now_hours _ hcs.1 hcs.2, ?_, ?_, ?_, ?_⟩
  · intro i
    rw [candidate_run, candidate_run]
    push_cast
    ring
  · intro t
    rw [get_latest_run_time]
    cases hfind : ((List.range 12).map
        (candidate_run now_hours (cycle_step_for model_name))).find? (head_ok model_name) with
    | some u =>
      constructor
      · intro h
        cases h
        exact (find?_map_range_eq_some _ _ 12 t).mp hfind
      · intro hex
        have := (find?_map_range_eq_some _ _ 12 t).mpr hex
        rw [hfind] at this
        cases this
        rfl
    | none =>
      constructor
      · intro h
        cases h
      · intro hex
        have := (find?_map_range_eq_some _ _ 12 t).mpr hex
        rw [hfind] at this
        cases this
  · rw [get_latest_run_time]
    cases hfind : ((List.range 12).map
        (candidate_run now_hours (cycle_step_for model_name))).find? (head_ok model_name) with
    | some u =>
      constructor
      · intro h
        cases h
      · intro hall
        have := (find?_map_range_eq_none _ _ 12).mpr hall
        rw [hfind] at this
        cases this
    | none =>
      constructor
      · intro _
        exact (find?_map_range_eq_none _ _ 12).mp hfind
      · intro _
        rfl
  · intro hmem
    exact List.mem_map.mpr ⟨model_name, hmem, rfl⟩

/-- C9 witness: with an existence oracle that accepts only run time 30,
model "GFS" (6-hourly cycles) at now = 50 h resolves to run 30 (the fourth
candidate probed: 48, 42, 36, 30). -/
theorem get_latest_run_time_spec_witness :
    get_latest_run_time ((fun _ t => decide (t = 30)) "GFS") "GFS" 50 = Except.ok 30 :=
  ((get_latest_run_time_spec (fun _ t => decide (t = 30)) "GFS" 50 []).2.2.2.1 30).mpr
    ⟨3, by norm_num, by decide, by decide, by decide⟩

end KalshiRain
